import Mathlib

/-!
Shallow embedding of the extraction pipeline of the `scrape0` scraper:

* `src/scraper/types.py`   — `TypeConverter` (boolean / number / list / string
  inference on extracted raw strings);
* `src/scraper/extraction.py` — `RuleParser.parse_rule`, `ExtractionEngine`
  (`extract_fields`, `_extract_css`);
* `src/scraper/models.py`  — `SiteConfig`, `FieldStatus`, `ExtractionMetadata`,
  `ExtractionResult`.

Python strings are modelled as Lean `String`, with the Python primitives
(`str.strip`, `str.lower`, `in`, `str.split`, `str.startswith`, `str.endswith`,
`", ".join`) defined below over the character list, restricted to ASCII
behaviour.  Python dicts whose insertion order the code iterates are modelled
as association lists.  The HTML / BeautifulSoup layer is abstracted: a
document-and-rule query is a function producing either a raised exception or
an optional raw string (`FieldOutcome`), and `_extract_css` is modelled on the
list of visible texts of the nodes matched by the structural query.
-/

/-- Model of Python `str.strip()` on the character list (ASCII whitespace). -/
def pyStripList (l : List Char) : List Char :=
  ((l.dropWhile Char.isWhitespace).reverse.dropWhile Char.isWhitespace).reverse

/-- Model of Python `str.strip()`. -/
def pyStrip (s : String) : String := String.mk (pyStripList s.data)

/-- Model of Python `str.lower()` (per-character, ASCII). -/
def pyLower (s : String) : String := String.mk (s.data.map Char.toLower)

/-- Model of Python `c in s` for a single-character probe `c`. -/
def pyContains (s : String) (c : Char) : Bool := s.data.contains c

/-- Model of Python `str.split(sep)` on character lists: split at every
occurrence of `sep`, keeping empty segments (so `"a,".split(",") = ["a",""]`). -/
def pySplitList (sep : Char) : List Char → List (List Char)
  | [] => [[]]
  | c :: rest =>
    let r := pySplitList sep rest
    if c = sep then [] :: r
    else
      match r with
      | g :: gs => (c :: g) :: gs
      | [] => [[c]]

/-- Model of Python `s.split(sep)` for a single-character separator. -/
def pySplit (s : String) (sep : Char) : List String :=
  (pySplitList sep s.data).map String.mk

/-- Model of Python `s.startswith(p)`. -/
def pyStartsWith (s p : String) : Bool := p.data.isPrefixOf s.data

/-- Model of Python `s.endswith(p)`. -/
def pyEndsWith (s p : String) : Bool := p.data.isSuffixOf s.data

/-- Model of Python `", ".join(texts)`. -/
def joinComma : List String → String
  | [] => ""
  | [t] => t
  | t :: rest => t ++ ", " ++ joinComma rest

/-- Digit run continuation for CPython integer literals: after a digit, each
underscore must be followed by a digit (`"1_0"` is accepted, `"1__0"` and
`"1_"` are not). -/
def pyDigitsTail : List Char → Bool
  | [] => true
  | c :: rest =>
    if c = '_' then
      match rest with
      | [] => false
      | c2 :: rest2 => c2.isDigit && pyDigitsTail rest2
    else c.isDigit && pyDigitsTail rest

/-- A non-empty digit run, underscores allowed between digits. -/
def pyDigitsRun (l : List Char) : Bool :=
  match l with
  | [] => false
  | c :: rest => c.isDigit && pyDigitsTail rest

/-- Numeric value of a digit run (underscores skipped). -/
def digitsVal (l : List Char) : Nat :=
  (l.filter (fun c => c ≠ '_')).foldl (fun a c => a * 10 + (c.toNat - 48)) 0

/-- Model of Python `int(s)` on an already-stripped string: optional sign,
then a digit run (ASCII digits; `None` models `ValueError`). -/
def pyIntParse (s : String) : Option Int :=
  match s.data with
  | [] => none
  | c :: rest =>
    if c = '+' then
      if pyDigitsRun rest then some (Int.ofNat (digitsVal rest)) else none
    else if c = '-' then
      if pyDigitsRun rest then some (Int.negOfNat (digitsVal rest)) else none
    else if pyDigitsRun (c :: rest) then some (Int.ofNat (digitsVal (c :: rest)))
    else none

/-- Split a character list at the first `'.'`, when present. -/
def splitAtDot : List Char → Option (List Char × List Char)
  | [] => none
  | c :: rest =>
    if c = '.' then some ([], rest)
    else (splitAtDot rest).map (fun p => (c :: p.1, p.2))

/-- Split a character list at the first `'e'`/`'E'`, when present. -/
def splitAtExp : List Char → List Char × Option (List Char)
  | [] => ([], none)
  | c :: rest =>
    if c = 'e' ∨ c = 'E' then ([], some rest)
    else
      let p := splitAtExp rest
      (c :: p.1, p.2)

/-- Mantissa of a CPython float literal: digits with an optional dot, at least
one digit on some side of the dot. -/
def pyMantissaOk (l : List Char) : Bool :=
  match splitAtDot l with
  | none => pyDigitsRun l
  | some (a, b) =>
    (a.isEmpty || pyDigitsRun a) && (b.isEmpty || pyDigitsRun b) &&
      !(a.isEmpty && b.isEmpty)

/-- Mantissa with an optional leading sign. -/
def pySignedMantissaOk (l : List Char) : Bool :=
  match l with
  | [] => pyMantissaOk []
  | c :: rest =>
    if c = '+' ∨ c = '-' then pyMantissaOk rest else pyMantissaOk (c :: rest)

/-- Exponent part of a CPython float literal: optional sign, digit run. -/
def pyExpOk : List Char → Bool
  | [] => pyDigitsRun []
  | c :: rest =>
    if c = '+' ∨ c = '-' then pyDigitsRun rest else pyDigitsRun (c :: rest)

/-- Model of acceptance of Python `float(s)` on an already-stripped string
(ASCII float literals; `inf`/`nan` forms are omitted — the code only reaches
`float` on strings containing `'.'`, which those forms never do). -/
def pyFloatOk (s : String) : Bool :=
  let p := splitAtExp s.data
  match p.2 with
  | none => pySignedMantissaOk p.1
  | some e => pySignedMantissaOk p.1 && pyExpOk e

/-- The dynamically-typed value produced by `TypeConverter` in
`src/scraper/types.py`: a Python `bool`, `int`, `float`, `list[str]` or `str`.
The IEEE value of a float is not modelled; the constructor carries the
accepted literal. -/
inductive PyValue : Type
  | bool (b : Bool)
  | int (n : Int)
  | float (lit : String)
  | list (xs : List String)
  | str (s : String)
deriving DecidableEq

/-- `TypeConverter.convert_to_bool` (`src/scraper/types.py`, lines 10-26):
strip and lowercase, map `"yes"/"true"/"1"` to `True`, `"no"/"false"/"0"` to
`False`, anything else back to the original string. -/
def convert_to_bool (value : String) : PyValue :=
  let normalized := pyLower (pyStrip value)
  if normalized ∈ (["yes", "true", "1"] : List String) then .bool true
  else if normalized ∈ (["no", "false", "0"] : List String) then .bool false
  else .str value

/-- `TypeConverter.convert_to_number` (`src/scraper/types.py`, lines 28-50):
strip; empty stays a string; without a `'.'` try `int`, with one try `float`;
a conversion error returns the (stripped) string. -/
def convert_to_number (value : String) : PyValue :=
  let v := pyStrip value
  if v = "" then .str v
  else if pyContains v '.' = false then
    match pyIntParse v with
    | some n => .int n
    | none => .str v
  else if pyFloatOk v then .float v
  else .str v

/-- The default separators of `TypeConverter.convert_to_list`, in trial
order. -/
def separators : List Char := [',', ';', '|']

/-- The separator loop of `TypeConverter.convert_to_list`
(`src/scraper/types.py`, lines 71-79): on the first separator present in `v`,
split, trim the pieces, drop empty pieces; more than one survivor gives a
list, exactly one survivor gives that single string, zero survivors fall
through to the next separator. -/
def listSepLoop (v : String) : List Char → PyValue
  | [] => .str v
  | sep :: rest =>
    if pyContains v sep then
      let parts := (pySplit v sep).map pyStrip
      let nonEmpty := parts.filter (fun p => p ≠ "")
      if nonEmpty.length > 1 then .list nonEmpty
      else if nonEmpty.length = 1 then .str (nonEmpty.headD "")
      else listSepLoop v rest
    else listSepLoop v rest

/-- `TypeConverter.convert_to_list` (`src/scraper/types.py`, lines 52-81). -/
def convert_to_list (value : String) : PyValue :=
  let v := pyStrip value
  if v = "" then .str v
  else listSepLoop v separators

/-- `TypeConverter.convert_to_string` (`src/scraper/types.py`, lines 83-88). -/
def convert_to_string (value : String) : String := pyStrip value

/-- The first separator (in trial order) present in `v`, if any — the
separator on which the loop of `convert_to_list` first splits. -/
def firstSep (v : String) : Option Char :=
  separators.find? (fun sep => pyContains v sep)

/-- `TypeConverter.infer_and_convert` (`src/scraper/types.py`, lines 90-116):
blank input is returned unchanged; otherwise try boolean, then number, then
list; a non-list result of the list step is discarded and the stripped
original string is returned. -/
def infer_and_convert (value : String) : PyValue :=
  if pyStrip value = "" then .str value
  else
    match convert_to_bool value with
    | .bool b => .bool b
    | _ =>
      match convert_to_number value with
      | .str _ =>
        match convert_to_list value with
        | .list xs => .list xs
        | _ => .str (convert_to_string value)
      | numResult => numResult

/-- `RuleParser.parse_rule` (`src/scraper/extraction.py`, lines 18-43).  The
Python non-string argument case is ruled out by typing; `not rule` on a string
is the emptiness test. -/
def parse_rule (rule : String) : String × String :=
  if rule = "" then ("unknown", rule)
  else if pyStartsWith (pyStrip rule) "//" then ("xpath", pyStrip rule)
  else if (pyStartsWith (pyStrip rule) "/" && pyEndsWith (pyStrip rule) "/")
      || pyStartsWith (pyStrip rule) "^" then ("regex", pyStrip rule)
  else ("css", pyStrip rule)

/-- `ExtractionEngine._extract_css` (`src/scraper/extraction.py`, lines
165-181), modelled on the list of visible texts of the elements matched by
`soup.select`: `get_text(strip=True)` is trimming, the comprehension drops
elements whose trimmed text is empty, and the result is the lone survivor or
the `", "`-join of several. -/
def extract_css (elementTexts : List String) : Option String :=
  if elementTexts = [] then none
  else
    let texts := (elementTexts.map pyStrip).filter (fun t => t ≠ "")
    if texts = [] then none
    else if texts.length > 1 then some (joinComma texts)
    else some (texts.headD "")

/-- `SiteConfig` (`src/scraper/models.py`, lines 8-34), restricted to the
fields `extract_fields` reads.  The two rule dicts are association lists in
insertion order. -/
structure SiteConfig where
  priority_fields : List (String × String)
  extra_fields : List (String × String)
  site_type : String := "unknown"

/-- `FieldStatus` (`src/scraper/models.py`, lines 76-82): three lists of field
names. -/
structure FieldStatus where
  extracted : List String := []
  failed : List String := []
  not_found : List String := []
deriving DecidableEq

/-- `ExtractionMetadata` (`src/scraper/models.py`, lines 56-73) without the
wall-clock timestamp and duration, which are not representable in a pure
embedding and which no claim mentions. -/
structure ExtractionMetadata where
  success : Bool
  failure_reason : Option String := none
  site_type : String := "unknown"
deriving DecidableEq

/-- `ExtractionResult` (`src/scraper/models.py`, lines 85-94). -/
structure ExtractionResult where
  success : Bool
  priority_fields : List (String × PyValue)
  extra_metadata : List (String × PyValue)
  metadata : ExtractionMetadata
  fields_status : FieldStatus
  error : Option String

/-- Outcome of `_extract_single_field(soup, rule)` for one rule: either a
returned value (`None` or a string), or a raised exception
(`ExtractionError` or any other).  The document is fixed, so the outcome is a
function of the rule alone. -/
inductive FieldOutcome
  | ok (value : Option String)
  | raised
deriving DecidableEq

/-- One iteration of the field loops of `ExtractionEngine.extract_fields`
(`src/scraper/extraction.py`, lines 89-119): a non-`None`, non-blank value is
converted and recorded as extracted; a `None` or blank value is recorded as
not found; a raised exception is caught and recorded as failed. -/
def processField (ext : String → FieldOutcome)
    (acc : List (String × PyValue) × FieldStatus) (f : String × String) :
    List (String × PyValue) × FieldStatus :=
  match ext f.2 with
  | .ok (some v) =>
    if pyStrip v ≠ "" then
      (acc.1 ++ [(f.1, infer_and_convert v)],
        { acc.2 with extracted := acc.2.extracted ++ [f.1] })
    else (acc.1, { acc.2 with not_found := acc.2.not_found ++ [f.1] })
  | .ok none => (acc.1, { acc.2 with not_found := acc.2.not_found ++ [f.1] })
  | .raised => (acc.1, { acc.2 with failed := acc.2.failed ++ [f.1] })

/-- `ExtractionEngine.extract_fields` (`src/scraper/extraction.py`, lines
62-135) after HTML parsing succeeded (a parse failure raises `ParsingError`
before any of this runs): process the priority section, then the extra
section, then derive `success` and `failure_reason`. -/
def extract_fields (ext : String → FieldOutcome) (cfg : SiteConfig) :
    ExtractionResult :=
  let p := cfg.priority_fields.foldl (processField ext) ([], {})
  let q := cfg.extra_fields.foldl (processField ext) ([], p.2)
  let success : Bool := decide (q.2.extracted.length > 0)
  { success := success,
    priority_fields := p.1,
    extra_metadata := q.1,
    metadata :=
      { success := success,
        failure_reason := if success then none else some "no_fields_extracted",
        site_type := cfg.site_type },
    fields_status := q.2,
    error := none }

/-- The status category `extract_fields` assigns to a field whose rule has
the given outcome. -/
inductive FieldCat
  | cat_extracted
  | cat_failed
  | cat_notFound
deriving DecidableEq

/-- Category of a rule under an outcome function. -/
def fieldCat (ext : String → FieldOutcome) (rule : String) : FieldCat :=
  match ext rule with
  | .ok (some v) => if pyStrip v ≠ "" then .cat_extracted else .cat_notFound
  | .ok none => .cat_notFound
  | .raised => .cat_failed

/-- Converted value stored for a rule whose outcome is a non-blank string
(junk otherwise; such rules are filtered out before use). -/
def fieldVal (ext : String → FieldOutcome) (rule : String) : PyValue :=
  match ext rule with
  | .ok (some v) => infer_and_convert v
  | _ => .str ""

/-- Association list of stored values for the extracted fields of a
section. -/
def extractedOf (ext : String → FieldOutcome) (fs : List (String × String)) :
    List (String × PyValue) :=
  (fs.filter (fun f => fieldCat ext f.2 == FieldCat.cat_extracted)).map
    (fun f => (f.1, fieldVal ext f.2))

/-- Names of the fields of a section landing in a given category. -/
def catNames (ext : String → FieldOutcome) (c : FieldCat)
    (fs : List (String × String)) : List String :=
  (fs.filter (fun f => fieldCat ext f.2 == c)).map Prod.fst

/-- Total number of occurrences of a name across the three status lists. -/
def countName (st : FieldStatus) (n : String) : Nat :=
  st.extracted.count n + st.failed.count n + st.not_found.count n

/-- A concrete outcome function for instance checks: rule `"p"` yields a
value, `"q"` yields a second value, `"bad"` raises, anything else matches
nothing. -/
def extW (rule : String) : FieldOutcome :=
  if rule = "p" then .ok (some "v")
  else if rule = "q" then .ok (some "w")
  else if rule = "bad" then .raised
  else .ok none

/-- A concrete site configuration with one succeeding and one raising
field. -/
def cfgW : SiteConfig := ⟨[("a", "bad"), ("b", "p")], [("c", "none")], "t"⟩

/-- A concrete site configuration in which the same field name is configured
in both the priority and the extra section. -/
def cfgDup : SiteConfig := ⟨[("x", "p")], [("x", "bad")], "t"⟩

example : extract_css [" Python ", " ", "Go"] = some "Python, Go" := by decide
example : infer_and_convert "a," = .str "a," := by decide
example : infer_and_convert "a, b" = .list ["a", "b"] := by decide
example : infer_and_convert "42" = .int 42 := by decide
example : infer_and_convert "1" = .bool true := by decide
example : infer_and_convert "3.14" = .float "3.14" := by decide
example : convert_to_list "a," = .str "a" := by decide
example : parse_rule " " = ("css", "") := by decide
example : parse_rule "/" = ("regex", "/") := by decide
example : parse_rule "//h1" = ("xpath", "//h1") := by decide
example : parse_rule "h1.title" = ("css", "h1.title") := by decide
example : (extract_fields extW cfgW).fields_status =
    ⟨["b"], ["a"], ["c"]⟩ := by decide

/-! ### Characterization of the field loops -/

/-- Unfolding the category of a rule with a raised outcome. -/
theorem fieldCat_raised {ext : String → FieldOutcome} {rule : String}
    (h : ext rule = FieldOutcome.raised) : fieldCat ext rule = FieldCat.cat_failed := by
  simp [fieldCat, h]

/-- Unfolding the category of a rule yielding a non-blank value. -/
theorem fieldCat_extracted {ext : String → FieldOutcome} {rule v : String}
    (h : ext rule = FieldOutcome.ok (some v)) (hv : pyStrip v ≠ "") :
    fieldCat ext rule = FieldCat.cat_extracted := by
  simp [fieldCat, h, hv]

/-- The two field loops of `extract_fields` are a fold of `processField`; this
characterizes that fold: values and status lists grow by the filtered,
per-category projections of the processed section. -/
theorem foldl_processField_eq (ext : String → FieldOutcome)
    (fs : List (String × String)) (vals : List (String × PyValue))
    (st : FieldStatus) :
    fs.foldl (processField ext) (vals, st) =
      (vals ++ extractedOf ext fs,
       { extracted := st.extracted ++ catNames ext FieldCat.cat_extracted fs,
         failed := st.failed ++ catNames ext FieldCat.cat_failed fs,
         not_found := st.not_found ++ catNames ext FieldCat.cat_notFound fs }) := by
  induction fs generalizing vals st with
  | nil => simp [extractedOf, catNames]
  | cons f fs ih =>
    simp only [List.foldl_cons]
    rcases h : ext f.2 with v | _
    · rcases v with _ | v
      · have hstep : processField ext (vals, st) f =
            (vals, { st with not_found := st.not_found ++ [f.1] }) := by
          simp [processField, h]
        rw [hstep, ih]
        simp [extractedOf, catNames, List.filter_cons, fieldCat, h]
      · by_cases hv : pyStrip v = ""
        · have hstep : processField ext (vals, st) f =
              (vals, { st with not_found := st.not_found ++ [f.1] }) := by
            simp [processField, h, hv]
          rw [hstep, ih]
          simp [extractedOf, catNames, List.filter_cons, fieldCat, h, hv]
        · have hstep : processField ext (vals, st) f =
              (vals ++ [(f.1, infer_and_convert v)],
               { st with extracted := st.extracted ++ [f.1] }) := by
            simp [processField, h, hv]
          rw [hstep, ih]
          simp [extractedOf, catNames, List.filter_cons, fieldCat, fieldVal, h, hv]
    · have hstep : processField ext (vals, st) f =
          (vals, { st with failed := st.failed ++ [f.1] }) := by
        simp [processField, h]
      rw [hstep, ih]
      simp [extractedOf, catNames, List.filter_cons, fieldCat, h]

/-- Explicit form of `extract_fields`: each status list is the concatenation
of the per-category names of the two sections, and the stored values are the
per-section extracted association lists. -/
theorem extract_fields_eq (ext : String → FieldOutcome) (cfg : SiteConfig) :
    extract_fields ext cfg =
      { success := decide (0 <
          (catNames ext FieldCat.cat_extracted cfg.priority_fields ++
            catNames ext FieldCat.cat_extracted cfg.extra_fields).length),
        priority_fields := extractedOf ext cfg.priority_fields,
        extra_metadata := extractedOf ext cfg.extra_fields,
        metadata :=
          { success := decide (0 <
              (catNames ext FieldCat.cat_extracted cfg.priority_fields ++
                catNames ext FieldCat.cat_extracted cfg.extra_fields).length),
            failure_reason := if 0 <
                (catNames ext FieldCat.cat_extracted cfg.priority_fields ++
                  catNames ext FieldCat.cat_extracted cfg.extra_fields).length
              then none else some "no_fields_extracted",
            site_type := cfg.site_type },
        fields_status :=
          { extracted := catNames ext FieldCat.cat_extracted cfg.priority_fields ++
              catNames ext FieldCat.cat_extracted cfg.extra_fields,
            failed := catNames ext FieldCat.cat_failed cfg.priority_fields ++
              catNames ext FieldCat.cat_failed cfg.extra_fields,
            not_found := catNames ext FieldCat.cat_notFound cfg.priority_fields ++
              catNames ext FieldCat.cat_notFound cfg.extra_fields },
        error := none } := by
  simp only [extract_fields, foldl_processField_eq]
  simp

/-- The three categories partition a processed section: the per-category name
lists have total length the section's length. -/
theorem catNames_length_sum (ext : String → FieldOutcome)
    (fs : List (String × String)) :
    (catNames ext FieldCat.cat_extracted fs).length +
      (catNames ext FieldCat.cat_failed fs).length +
      (catNames ext FieldCat.cat_notFound fs).length = fs.length := by
  induction fs with
  | nil => simp [catNames]
  | cons f fs ih =>
    rcases hc : fieldCat ext f.2 with _ | _ | _ <;>
      simp [catNames, List.filter_cons, hc, beq_iff_eq] at ih ⊢ <;> omega

/-- Per-name version of the partition: occurrences of a name across the three
category lists of a section add up to its occurrences among the section's
field names. -/
theorem catNames_count_sum (ext : String → FieldOutcome)
    (fs : List (String × String)) (n : String) :
    (catNames ext FieldCat.cat_extracted fs).count n +
      (catNames ext FieldCat.cat_failed fs).count n +
      (catNames ext FieldCat.cat_notFound fs).count n =
      (fs.map Prod.fst).count n := by
  induction fs with
  | nil => simp [catNames]
  | cons f fs ih =>
    rcases hc : fieldCat ext f.2 with _ | _ | _ <;>
      simp [catNames, List.filter_cons, hc, beq_iff_eq, List.count_cons] at ih ⊢ <;>
      by_cases hn : f.1 = n <;> simp [hn] <;> omega

/-- A configured field whose rule falls in category `c` contributes its name
to that category's list. -/
theorem mem_catNames {ext : String → FieldOutcome} {fs : List (String × String)}
    {name rule : String} {c : FieldCat}
    (h : (name, rule) ∈ fs) (hc : fieldCat ext rule = c) :
    name ∈ catNames ext c fs := by
  refine List.mem_map.mpr ⟨(name, rule), List.mem_filter.mpr ⟨h, ?_⟩, rfl⟩
  simp [hc]

/-- A configured field whose rule is in the extracted category contributes its
converted value to the section's stored association list. -/
theorem mem_extractedOf {ext : String → FieldOutcome} {fs : List (String × String)}
    {name rule : String}
    (h : (name, rule) ∈ fs) (hc : fieldCat ext rule = FieldCat.cat_extracted) :
    (name, fieldVal ext rule) ∈ extractedOf ext fs := by
  refine List.mem_map.mpr ⟨(name, rule), List.mem_filter.mpr ⟨h, ?_⟩, rfl⟩
  simp [hc]

/-- With distinct names in a section, a field of category `c` puts its name in
that category's list exactly once. -/
theorem catNames_count_eq_one {ext : String → FieldOutcome}
    {fs : List (String × String)} {name rule : String} {c : FieldCat}
    (hnd : (fs.map Prod.fst).Nodup) (h : (name, rule) ∈ fs)
    (hc : fieldCat ext rule = c) :
    (catNames ext c fs).count name = 1 := by
  have hle : (catNames ext c fs).count name ≤ (fs.map Prod.fst).count name :=
    List.Sublist.count_le (List.Sublist.map Prod.fst (List.filter_sublist fs)) name
  have h1 : (fs.map Prod.fst).count name = 1 :=
    List.count_eq_one_of_mem hnd (List.mem_map.mpr ⟨(name, rule), h, rfl⟩)
  have hpos : 0 < (catNames ext c fs).count name :=
    List.count_pos_iff.mpr (mem_catNames h hc)
  omega

/-! ### Claims about `extract_fields` -/

/-- C1: for every parsed document (every outcome function) and every site
rule-set, a field whose extractor raises (`ExtractionError` or anything else)
has its name recorded in `fieldStatus.failed`, and every configured field of
both sections is still attempted: each of the `priority` and `extra` fields
contributes exactly one status entry, so no field-level exception aborts the
pass (the embedded loop is total — exceptions are caught, never
propagated). -/
theorem field_failure_isolated (ext : String → FieldOutcome) (cfg : SiteConfig)
    (name rule : String)
    (hmem : (name, rule) ∈ cfg.priority_fields ++ cfg.extra_fields)
    (hraised : ext rule = FieldOutcome.raised) :
    name ∈ (extract_fields ext cfg).fields_status.failed ∧
    (extract_fields ext cfg).fields_status.extracted.length +
        (extract_fields ext cfg).fields_status.failed.length +
        (extract_fields ext cfg).fields_status.not_found.length =
      cfg.priority_fields.length + cfg.extra_fields.length := by
  rw [extract_fields_eq]
  constructor
  · rcases List.mem_append.mp hmem with h | h
    · exact List.mem_append.mpr (Or.inl (mem_catNames h (fieldCat_raised hraised)))
    · exact List.mem_append.mpr (Or.inr (mem_catNames h (fieldCat_raised hraised)))
  · have h1 := catNames_length_sum ext cfg.priority_fields
    have h2 := catNames_length_sum ext cfg.extra_fields
    simp only [List.length_append]
    omega

/-- C1 witness: in `cfgW`, field `"a"`'s rule `"bad"` raises; `"a"` lands in
`failed` and all three configured fields still receive a status. -/
theorem field_failure_isolated_witness :
    "a" ∈ (extract_fields extW cfgW).fields_status.failed ∧
    (extract_fields extW cfgW).fields_status.extracted.length +
        (extract_fields extW cfgW).fields_status.failed.length +
        (extract_fields extW cfgW).fields_status.not_found.length =
      cfgW.priority_fields.length + cfgW.extra_fields.length :=
  field_failure_isolated extW cfgW "a" "bad" (by decide) (by decide)

/-- C2 counterexample: the claim's uniqueness hypothesis (names unique within
each section separately) is satisfied by `cfgDup`, whose single name `"x"`
occurs in both sections; yet `"x"` appears in two status lists at once
(`extracted` via the priority rule, `failed` via the extra rule), refuting
"every configured field name appears in exactly one of the three sets". -/
theorem status_partition_cx :
    (cfgDup.priority_fields.map Prod.fst).Nodup ∧
    (cfgDup.extra_fields.map Prod.fst).Nodup ∧
    "x" ∈ (extract_fields extW cfgDup).fields_status.extracted ∧
    "x" ∈ (extract_fields extW cfgDup).fields_status.failed := by
  refine ⟨by decide, by decide, ?_, ?_⟩ <;> decide

/-- C2 (amended): when field names are unique across the two sections
combined, every configured name appears in exactly one of the three status
lists, exactly once. -/
theorem status_partition (ext : String → FieldOutcome) (cfg : SiteConfig)
    (hnodup : ((cfg.priority_fields ++ cfg.extra_fields).map Prod.fst).Nodup)
    (name : String)
    (hname : name ∈ (cfg.priority_fields ++ cfg.extra_fields).map Prod.fst) :
    (extract_fields ext cfg).fields_status.extracted.count name +
        (extract_fields ext cfg).fields_status.failed.count name +
        (extract_fields ext cfg).fields_status.not_found.count name = 1 := by
  rw [extract_fields_eq]
  have hc := List.count_eq_one_of_mem hnodup hname
  have h1 := catNames_count_sum ext cfg.priority_fields name
  have h2 := catNames_count_sum ext cfg.extra_fields name
  simp only [List.map_append, List.count_append] at hc ⊢
  omega

/-- C2 witness: in `cfgW` all three names are distinct across the sections,
and `"a"` appears exactly once across the three status lists. -/
theorem status_partition_witness :
    (extract_fields extW cfgW).fields_status.extracted.count "a" +
        (extract_fields extW cfgW).fields_status.failed.count "a" +
        (extract_fields extW cfgW).fields_status.not_found.count "a" = 1 :=
  status_partition extW cfgW (by decide) "a" (by decide)

/-- C3: the returned success flag is true exactly when `extracted` is
non-empty after both sections, and a false flag comes with
`failure_reason = "no_fields_extracted"`. -/
theorem success_iff_extracted (ext : String → FieldOutcome) (cfg : SiteConfig) :
    ((extract_fields ext cfg).success = true ↔
      (extract_fields ext cfg).fields_status.extracted ≠ []) ∧
    ((extract_fields ext cfg).success = false →
      (extract_fields ext cfg).metadata.failure_reason =
        some "no_fields_extracted") := by
  rw [extract_fields_eq]
  constructor
  · simp only [decide_eq_true_eq, List.length_pos]
  · intro h
    simp only [decide_eq_false_iff_not, Nat.not_lt, Nat.le_zero] at h
    simp [h]

/-- C3 witness: `cfgW` extracts field `"b"`, so success is true and the
extracted list is non-empty; the failure-reason implication holds vacuously. -/
theorem success_iff_extracted_witness :
    ((extract_fields extW cfgW).success = true ↔
      (extract_fields extW cfgW).fields_status.extracted ≠ []) ∧
    ((extract_fields extW cfgW).success = false →
      (extract_fields extW cfgW).metadata.failure_reason =
        some "no_fields_extracted") :=
  success_iff_extracted extW cfgW

/-- C9: every result returned by `extract_fields` carries `error = None`;
problems surface only through the status lists and `failure_reason` (a parse
failure raises `ParsingError` instead of returning a result at all). -/
theorem error_always_none (ext : String → FieldOutcome) (cfg : SiteConfig) :
    (extract_fields ext cfg).error = none := by
  rw [extract_fields_eq]

/-- C10: a field name configured in both sections is processed twice — it
receives exactly two status entries; if both rules extract, each section
stores its own converted value and the name is counted twice in `extracted`;
if the priority rule extracts while the extra rule raises, the name appears
in two different status lists at once. -/
theorem duplicate_name_both_sections (ext : String → FieldOutcome)
    (cfg : SiteConfig) (name r1 r2 : String)
    (hnp : (cfg.priority_fields.map Prod.fst).Nodup)
    (hne : (cfg.extra_fields.map Prod.fst).Nodup)
    (h1 : (name, r1) ∈ cfg.priority_fields)
    (h2 : (name, r2) ∈ cfg.extra_fields) :
    countName (extract_fields ext cfg).fields_status name = 2 ∧
    (∀ v w, ext r1 = FieldOutcome.ok (some v) → pyStrip v ≠ "" →
      ext r2 = FieldOutcome.ok (some w) → pyStrip w ≠ "" →
      (name, infer_and_convert v) ∈ (extract_fields ext cfg).priority_fields ∧
      (name, infer_and_convert w) ∈ (extract_fields ext cfg).extra_metadata ∧
      (extract_fields ext cfg).fields_status.extracted.count name = 2) ∧
    (∀ v, ext r1 = FieldOutcome.ok (some v) → pyStrip v ≠ "" →
      ext r2 = FieldOutcome.raised →
      name ∈ (extract_fields ext cfg).fields_status.extracted ∧
      name ∈ (extract_fields ext cfg).fields_status.failed) := by
  rw [extract_fields_eq]
  refine ⟨?_, ?_, ?_⟩
  · have hc1 := catNames_count_sum ext cfg.priority_fields name
    have hc2 := catNames_count_sum ext cfg.extra_fields name
    have hp : (cfg.priority_fields.map Prod.fst).count name = 1 :=
      List.count_eq_one_of_mem hnp (List.mem_map.mpr ⟨(name, r1), h1, rfl⟩)
    have he : (cfg.extra_fields.map Prod.fst).count name = 1 :=
      List.count_eq_one_of_mem hne (List.mem_map.mpr ⟨(name, r2), h2, rfl⟩)
    simp only [countName, List.count_append]
    omega
  · intro v w hv1 hv2 hw1 hw2
    have hcv := fieldCat_extracted hv1 hv2
    have hcw := fieldCat_extracted hw1 hw2
    have hval1 : fieldVal ext r1 = infer_and_convert v := by simp [fieldVal, hv1]
    have hval2 : fieldVal ext r2 = infer_and_convert w := by simp [fieldVal, hw1]
    refine ⟨?_, ?_, ?_⟩
    · have := mem_extractedOf h1 hcv
      rwa [hval1] at this
    · have := mem_extractedOf h2 hcw
      rwa [hval2] at this
    · simp only [List.count_append]
      rw [catNames_count_eq_one hnp h1 hcv, catNames_count_eq_one hne h2 hcw]
  · intro v hv1 hv2 hr
    exact ⟨List.mem_append.mpr (Or.inl (mem_catNames h1 (fieldCat_extracted hv1 hv2))),
      List.mem_append.mpr (Or.inr (mem_catNames h2 (fieldCat_raised hr)))⟩

/-- C10 witness: in `cfgDup`, the name `"x"` is configured in both sections
(priority rule extracts, extra rule raises): it gets two status entries and
appears in both `extracted` and `failed`. -/
theorem duplicate_name_both_sections_witness :
    countName (extract_fields extW cfgDup).fields_status "x" = 2 ∧
    "x" ∈ (extract_fields extW cfgDup).fields_status.extracted ∧
    "x" ∈ (extract_fields extW cfgDup).fields_status.failed := by
  have h := duplicate_name_both_sections extW cfgDup "x" "p" "bad"
    (by decide) (by decide) (by decide) (by decide)
  exact ⟨h.1, (h.2.2 "v" (by decide) (by decide) (by decide)).1,
    (h.2.2 "v" (by decide) (by decide) (by decide)).2⟩

/-! ### Claims about `parse_rule` and `_extract_css` -/

/-- C5 counterexample: a whitespace-only rule is truthy in Python, so
`parse_rule` never reaches the `unknown` branch for it; `" "` strips to `""`,
matches neither the `"//"` nor the regex patterns, and falls through to the
`css` (StructuralSelector) default — contradicting "never classifies such a
rule as a StructuralSelector". -/
theorem unknown_rule_cx :
    parse_rule " " = ("css", "") ∧ ("css" : String) ≠ "unknown" :=
  ⟨by decide, by decide⟩

/-- C5 (amended): only the genuinely empty rule is classified `unknown` (with
the original value as pattern); a non-empty whitespace-only rule falls through
to the `css` (StructuralSelector) default with an empty pattern. -/
theorem empty_rule_unknown (s : String) :
    (s = "" → parse_rule s = ("unknown", s)) ∧
    (s ≠ "" → pyStrip s = "" → parse_rule s = ("css", "")) := by
  constructor
  · intro h
    subst h
    decide
  · intro h1 h2
    unfold parse_rule
    rw [if_neg h1, h2]
    simp [show pyStartsWith "" "//" = false from by decide,
      show pyStartsWith "" "/" = false from by decide,
      show pyStartsWith "" "^" = false from by decide]

/-- C5 witness: the empty rule is `unknown`, the two-blank rule is `css`. -/
theorem empty_rule_unknown_witness :
    parse_rule "" = ("unknown", "") ∧ parse_rule "  " = ("css", "") :=
  ⟨(empty_rule_unknown "").1 rfl, (empty_rule_unknown "  ").2 (by decide) (by decide)⟩

/-- C8 counterexample: the code has no length check, so the single-character
rule `"/"` — which starts and ends with `"/"` but has length 1 — is classified
`regex` (PatternMatch), not `css` (StructuralSelector) as the claim
predicts. -/
theorem slash_rule_cx :
    parse_rule "/" = ("regex", "/") ∧ ¬ 2 ≤ ("/" : String).length :=
  ⟨by decide, by decide⟩

/-- C8 (amended): when the rule is non-empty and its trimmed form does not
start with `"//"`, it is classified `regex` (PatternMatch) exactly when the
trimmed value starts with `"/"` and ends with `"/"` — with no lower bound on
the length, so `"/"` itself qualifies — or starts with `"^"`. -/
theorem pattern_match_iff (s : String) (h0 : s ≠ "")
    (h1 : pyStartsWith (pyStrip s) "//" = false) :
    (parse_rule s).1 = "regex" ↔
      ((pyStartsWith (pyStrip s) "/" = true ∧ pyEndsWith (pyStrip s) "/" = true) ∨
        pyStartsWith (pyStrip s) "^" = true) := by
  by_cases hc : ((pyStartsWith (pyStrip s) "/" && pyEndsWith (pyStrip s) "/")
      || pyStartsWith (pyStrip s) "^") = true
  · rw [show (parse_rule s).1 = "regex" from by
      unfold parse_rule
      rw [if_neg h0, h1]
      simp [hc]]
    simp only [Bool.or_eq_true, Bool.and_eq_true] at hc
    exact iff_of_true rfl hc
  · rw [show (parse_rule s).1 = "css" from by
      unfold parse_rule
      rw [if_neg h0, h1]
      simp [hc]]
    simp only [Bool.or_eq_true, Bool.and_eq_true] at hc
    exact iff_of_false (by decide) hc

/-- C8 witness: `"/x/"` and the single character `"/"` are both classified
`regex`. -/
theorem pattern_match_iff_witness :
    (parse_rule "/x/").1 = "regex" ∧ (parse_rule "/").1 = "regex" :=
  ⟨(pattern_match_iff "/x/" (by decide) (by decide)).mpr
      (Or.inl ⟨by decide, by decide⟩),
    (pattern_match_iff "/" (by decide) (by decide)).mpr
      (Or.inl ⟨by decide, by decide⟩)⟩

/-- C7: for the visible texts of the nodes matched by a structural selector,
`_extract_css` trims each text, drops the blanks, and then returns `None` on
zero survivors, the lone survivor on one, and the `", "`-join on several —
never an error. -/
theorem css_aggregation (nodeTexts : List String) :
    ((nodeTexts.map pyStrip).filter (fun t => t ≠ "") = [] →
      extract_css nodeTexts = none) ∧
    (∀ t, (nodeTexts.map pyStrip).filter (fun t => t ≠ "") = [t] →
      extract_css nodeTexts = some t) ∧
    (∀ ts, (nodeTexts.map pyStrip).filter (fun t => t ≠ "") = ts →
      ts.length > 1 → extract_css nodeTexts = some (joinComma ts)) := by
  refine ⟨?_, ?_, ?_⟩
  · intro h
    unfold extract_css
    by_cases he : nodeTexts = []
    · rw [if_pos he]
    · rw [if_neg he]
      simp only [h, if_pos]
  · intro t h
    have hne : nodeTexts ≠ [] := by
      intro he
      rw [he] at h
      simp at h
    unfold extract_css
    rw [if_neg hne]
    simp only [h]
    norm_num
  · intro ts h hlen
    have hts : ts ≠ [] := by
      intro he
      rw [he] at hlen
      simp at hlen
    have hne : nodeTexts ≠ [] := by
      intro he
      rw [he] at h
      simp at h
      exact hts h
    unfold extract_css
    rw [if_neg hne]
    simp only [h]
    rw [if_neg hts, if_pos hlen]

/-- C7 witness: two non-blank survivors are joined with `", "`; a lone
survivor is returned alone; all-blank matches give `None`. -/
theorem css_aggregation_witness :
    extract_css [" Python ", " ", "Go"] = some (joinComma ["Python", "Go"]) ∧
    extract_css ["  one  "] = some "one" ∧
    extract_css [" ", ""] = none :=
  ⟨(css_aggregation [" Python ", " ", "Go"]).2.2 ["Python", "Go"] (by decide)
      (by decide),
    (css_aggregation ["  one  "]).2.1 "one" (by decide),
    (css_aggregation [" ", ""]).1 (by decide)⟩

/-! ### Claims about `TypeConverter` -/

/-- C6: an input whose trimmed, lowercased form is `"yes"`, `"true"` or `"1"`
infers to boolean true, and `"no"`, `"false"` or `"0"` to boolean false — the
boolean stage runs before any numeric conversion, so `infer("1")` is the
boolean true, never the integer 1. -/
theorem bool_precedence (s : String) :
    (pyLower (pyStrip s) ∈ (["yes", "true", "1"] : List String) →
      infer_and_convert s = PyValue.bool true) ∧
    (pyLower (pyStrip s) ∈ (["no", "false", "0"] : List String) →
      infer_and_convert s = PyValue.bool false) ∧
    infer_and_convert "1" = PyValue.bool true := by
  refine ⟨?_, ?_, by decide⟩
  · intro h
    have hs : pyStrip s ≠ "" := by
      intro he
      rw [he] at h
      revert h
      decide
    simp [infer_and_convert, hs, convert_to_bool, h]
  · intro h
    have hmem := h
    simp only [List.mem_cons, List.not_mem_nil, or_false] at h
    have hs : pyStrip s ≠ "" := by
      intro he
      rw [he] at hmem
      revert hmem
      decide
    have h1 : pyLower (pyStrip s) ∉ (["yes", "true", "1"] : List String) := by
      rcases h with h | h | h <;> rw [h] <;> decide
    simp [infer_and_convert, hs, convert_to_bool, h1, hmem]

/-- C6 witness: `" TRUE "` infers to boolean true, `"0"` to boolean false. -/
theorem bool_precedence_witness :
    infer_and_convert " TRUE " = PyValue.bool true ∧
    infer_and_convert "0" = PyValue.bool false :=
  ⟨(bool_precedence " TRUE ").1 (by decide), (bool_precedence "0").2.1 (by decide)⟩

/-! ### Character-level facts about the numeric parsers -/

/-- A character reported present by `pyContains` is in the string's data. -/
theorem mem_of_pyContains {v : String} {c : Char} (h : pyContains v c = true) :
    c ∈ v.data := by
  simpa [pyContains] using h

/-- A string with a member character is non-empty. -/
theorem ne_empty_of_mem_data {v : String} {c : Char} (h : c ∈ v.data) :
    v ≠ "" := by
  intro he
  rw [he] at h
  simp at h

/-- Characters accepted inside a digit-run continuation are digits or
underscores. -/
theorem pyDigitsTail_chars (l : List Char) (h : pyDigitsTail l = true) :
    ∀ c ∈ l, c.isDigit = true ∨ c = '_' := by
  induction l using pyDigitsTail.induct with
  | case1 => intro c hc; simp at hc
  | case2 => exact absurd h (by decide)
  | case3 c2 rest2 ih =>
    simp [pyDigitsTail] at h
    intro c hc
    rcases List.mem_cons.mp hc with rfl | hc
    · exact Or.inr rfl
    · rcases List.mem_cons.mp hc with rfl | hc
      · exact Or.inl h.1
      · exact ih h.2 c hc
  | case4 c2 rest2 hne ih =>
    unfold pyDigitsTail at h
    rw [if_neg hne] at h
    simp only [Bool.and_eq_true] at h
    intro c hc
    rcases List.mem_cons.mp hc with rfl | hc
    · exact Or.inl h.1
    · exact ih h.2 c hc

/-- Characters of an accepted digit run are digits or underscores. -/
theorem pyDigitsRun_chars {l : List Char} (h : pyDigitsRun l = true) :
    ∀ c ∈ l, c.isDigit = true ∨ c = '_' := by
  cases l with
  | nil => intro c hc; simp at hc
  | cons c0 rest =>
    simp only [pyDigitsRun, Bool.and_eq_true] at h
    intro c hc
    rcases List.mem_cons.mp hc with rfl | hc
    · exact Or.inl h.1
    · exact pyDigitsTail_chars rest h.2 c hc

/-- Characters of a string accepted by the integer parser are digits,
underscores or signs. -/
theorem pyIntParse_chars {v : String} {n : Int} (h : pyIntParse v = some n) :
    ∀ c ∈ v.data, c.isDigit = true ∨ c = '_' ∨ c = '+' ∨ c = '-' := by
  unfold pyIntParse at h
  split at h
  · simp at h
  · next c0 rest heq =>
    rw [heq]
    by_cases h0 : c0 = '+'
    · rw [if_pos h0] at h
      split at h
      · next hrun =>
        intro c hc
        rcases List.mem_cons.mp hc with rfl | hc
        · exact Or.inr (Or.inr (Or.inl h0))
        · rcases pyDigitsRun_chars hrun c hc with hd | hd
          · exact Or.inl hd
          · exact Or.inr (Or.inl hd)
      · simp at h
    · rw [if_neg h0] at h
      by_cases h1 : c0 = '-'
      · rw [if_pos h1] at h
        split at h
        · next hrun =>
          intro c hc
          rcases List.mem_cons.mp hc with rfl | hc
          · exact Or.inr (Or.inr (Or.inr h1))
          · rcases pyDigitsRun_chars hrun c hc with hd | hd
            · exact Or.inl hd
            · exact Or.inr (Or.inl hd)
        · simp at h
      · rw [if_neg h1] at h
        split at h
        · next hrun =>
          intro c hc
          rcases pyDigitsRun_chars hrun c hc with hd | hd
          · exact Or.inl hd
          · exact Or.inr (Or.inl hd)
        · simp at h

/-- `splitAtDot` decomposes its input around the first dot. -/
theorem splitAtDot_eq (l : List Char) :
    ∀ a b, splitAtDot l = some (a, b) → l = a ++ '.' :: b := by
  induction l with
  | nil => intro a b h; simp [splitAtDot] at h
  | cons c rest ih =>
    intro a b h
    by_cases hc : c = '.'
    · subst hc
      simp [splitAtDot] at h
      obtain ⟨rfl, rfl⟩ := h
      rfl
    · have hstep : splitAtDot (c :: rest) =
          (splitAtDot rest).map (fun p => (c :: p.1, p.2)) := by
        simp [splitAtDot, hc]
      rw [hstep] at h
      rcases Option.map_eq_some'.mp h with ⟨⟨a', b'⟩, hp, heq⟩
      cases heq
      rw [List.cons_append, ih a' b' hp]

/-- `splitAtExp` decomposes its input around the first `'e'`/`'E'`, when
one is present, and is the identity otherwise. -/
theorem splitAtExp_eq (l : List Char) :
    ((splitAtExp l).2 = none → (splitAtExp l).1 = l) ∧
    (∀ b, (splitAtExp l).2 = some b →
      (splitAtExp l).1 ++ 'e' :: b = l ∨ (splitAtExp l).1 ++ 'E' :: b = l) := by
  induction l with
  | nil => simp [splitAtExp]
  | cons c rest ih =>
    by_cases hc : c = 'e' ∨ c = 'E'
    · constructor
      · intro h
        simp only [splitAtExp, if_pos hc] at h
        simp at h
      · intro b hb
        simp only [splitAtExp, if_pos hc] at hb ⊢
        simp only [Option.some.injEq] at hb
        subst hb
        rcases hc with h1 | h1 <;> subst h1
        · exact Or.inl rfl
        · exact Or.inr rfl
    · constructor
      · intro h
        simp only [splitAtExp, if_neg hc] at h ⊢
        rw [ih.1 h]
      · intro b hb
        simp only [splitAtExp, if_neg hc] at hb ⊢
        rcases ih.2 b hb with h1 | h1
        · exact Or.inl (by rw [List.cons_append, h1])
        · exact Or.inr (by rw [List.cons_append, h1])

/-- Characters of an accepted float mantissa are digits, underscores or the
dot. -/
theorem pyMantissaOk_chars {l : List Char} (h : pyMantissaOk l = true) :
    ∀ c ∈ l, c.isDigit = true ∨ c = '_' ∨ c = '.' := by
  unfold pyMantissaOk at h
  split at h
  · intro c hc
    rcases pyDigitsRun_chars h c hc with h' | h'
    · exact Or.inl h'
    · exact Or.inr (Or.inl h')
  · next a b heq =>
    have hl := splitAtDot_eq l a b heq
    simp only [Bool.and_eq_true, Bool.or_eq_true] at h
    intro c hc
    rw [hl] at hc
    rcases List.mem_append.mp hc with hca | hcb
    · rcases h.1.1 with ha | ha
      · rw [List.isEmpty_iff.mp ha] at hca
        simp at hca
      · rcases pyDigitsRun_chars ha c hca with h' | h'
        · exact Or.inl h'
        · exact Or.inr (Or.inl h')
    · rcases List.mem_cons.mp hcb with rfl | hcb
      · exact Or.inr (Or.inr rfl)
      · rcases h.1.2 with hb | hb
        · rw [List.isEmpty_iff.mp hb] at hcb
          simp at hcb
        · rcases pyDigitsRun_chars hb c hcb with h' | h'
          · exact Or.inl h'
          · exact Or.inr (Or.inl h')

/-- Characters of an accepted signed mantissa. -/
theorem pySignedMantissaOk_chars {l : List Char} (h : pySignedMantissaOk l = true) :
    ∀ c ∈ l, c.isDigit = true ∨ c = '_' ∨ c = '.' ∨ c = '+' ∨ c = '-' := by
  cases l with
  | nil => intro c hc; simp at hc
  | cons c0 rest =>
    by_cases h0 : c0 = '+' ∨ c0 = '-'
    · simp only [pySignedMantissaOk, if_pos h0] at h
      intro c hc
      rcases List.mem_cons.mp hc with rfl | hc
      · rcases h0 with h0 | h0 <;> subst h0 <;> decide
      · rcases pyMantissaOk_chars h c hc with h' | h' | h'
        · exact Or.inl h'
        · exact Or.inr (Or.inl h')
        · exact Or.inr (Or.inr (Or.inl h'))
    · simp only [pySignedMantissaOk, if_neg h0] at h
      intro c hc
      rcases pyMantissaOk_chars h c hc with h' | h' | h'
      · exact Or.inl h'
      · exact Or.inr (Or.inl h')
      · exact Or.inr (Or.inr (Or.inl h'))

/-- Characters of an accepted exponent part. -/
theorem pyExpOk_chars {l : List Char} (h : pyExpOk l = true) :
    ∀ c ∈ l, c.isDigit = true ∨ c = '_' ∨ c = '+' ∨ c = '-' := by
  cases l with
  | nil => intro c hc; simp at hc
  | cons c0 rest =>
    by_cases h0 : c0 = '+' ∨ c0 = '-'
    · simp only [pyExpOk, if_pos h0] at h
      intro c hc
      rcases List.mem_cons.mp hc with rfl | hc
      · rcases h0 with h0 | h0 <;> subst h0 <;> decide
      · rcases pyDigitsRun_chars h c hc with h' | h'
        · exact Or.inl h'
        · exact Or.inr (Or.inl h')
    · simp only [pyExpOk, if_neg h0] at h
      intro c hc
      rcases pyDigitsRun_chars h c hc with h' | h'
      · exact Or.inl h'
      · exact Or.inr (Or.inl h')

/-- Characters of a string accepted by the float parser. -/
theorem pyFloatOk_chars {v : String} (h : pyFloatOk v = true) :
    ∀ c ∈ v.data,
      c.isDigit = true ∨ c = '_' ∨ c = '.' ∨ c = '+' ∨ c = '-' ∨
        c = 'e' ∨ c = 'E' := by
  simp only [pyFloatOk] at h
  split at h
  · next hnone =>
    intro c hc
    rw [← (splitAtExp_eq v.data).1 hnone] at hc
    rcases pySignedMantissaOk_chars h c hc with h' | h' | h' | h' | h'
    · exact Or.inl h'
    · exact Or.inr (Or.inl h')
    · exact Or.inr (Or.inr (Or.inl h'))
    · exact Or.inr (Or.inr (Or.inr (Or.inl h')))
    · exact Or.inr (Or.inr (Or.inr (Or.inr (Or.inl h'))))
  · next e hsome =>
    simp only [Bool.and_eq_true] at h
    intro c hc
    have hdec := (splitAtExp_eq v.data).2 e hsome
    have hmant : ∀ c ∈ (splitAtExp v.data).1,
        c.isDigit = true ∨ c = '_' ∨ c = '.' ∨ c = '+' ∨ c = '-' :=
      pySignedMantissaOk_chars h.1
    have hexp : ∀ c ∈ e, c.isDigit = true ∨ c = '_' ∨ c = '+' ∨ c = '-' :=
      pyExpOk_chars h.2
    rcases hdec with heq | heq
    all_goals rw [← heq] at hc
    all_goals rcases List.mem_append.mp hc with hc1 | hc2
    · rcases hmant c hc1 with h' | h' | h' | h' | h' <;> simp [h']
    · rcases List.mem_cons.mp hc2 with rfl | hc2
      · simp
      · rcases hexp c hc2 with h' | h' | h' | h' <;> simp [h']
    · rcases hmant c hc1 with h' | h' | h' | h' | h' <;> simp [h']
    · rcases List.mem_cons.mp hc2 with rfl | hc2
      · simp
      · rcases hexp c hc2 with h' | h' | h' | h' <;> simp [h']

/-- A string containing a list separator is rejected by the integer parser. -/
theorem sep_pyIntParse_none {v : String} {sep : Char} (hs : sep ∈ separators)
    (hc : sep ∈ v.data) : pyIntParse v = none := by
  cases hp : pyIntParse v with
  | none => rfl
  | some n =>
    have hch := pyIntParse_chars hp sep hc
    simp only [separators, List.mem_cons, List.not_mem_nil, or_false] at hs
    rcases hs with rfl | rfl | rfl <;> exact absurd hch (by decide)

/-- A string containing a list separator is rejected by the float parser. -/
theorem sep_pyFloatOk_false {v : String} {sep : Char} (hs : sep ∈ separators)
    (hc : sep ∈ v.data) : pyFloatOk v = false := by
  cases hp : pyFloatOk v with
  | false => rfl
  | true =>
    have hch := pyFloatOk_chars hp sep hc
    simp only [separators, List.mem_cons, List.not_mem_nil, or_false] at hs
    rcases hs with rfl | rfl | rfl <;> exact absurd hch (by decide)

/-- A string whose stripped form contains a list separator is not recognized
as a boolean. -/
theorem sep_convert_to_bool {s : String} {sep : Char} (hs : sep ∈ separators)
    (hc : sep ∈ (pyStrip s).data) : convert_to_bool s = PyValue.str s := by
  have hmem : sep.toLower ∈ (pyLower (pyStrip s)).data :=
    List.mem_map_of_mem Char.toLower hc
  have h1 : pyLower (pyStrip s) ∉ (["yes", "true", "1"] : List String) := by
    intro hin
    simp only [List.mem_cons, List.not_mem_nil, or_false] at hin
    simp only [separators, List.mem_cons, List.not_mem_nil, or_false] at hs
    rcases hin with h | h | h <;> rw [h] at hmem <;>
      rcases hs with rfl | rfl | rfl <;> revert hmem <;> decide
  have h2 : pyLower (pyStrip s) ∉ (["no", "false", "0"] : List String) := by
    intro hin
    simp only [List.mem_cons, List.not_mem_nil, or_false] at hin
    simp only [separators, List.mem_cons, List.not_mem_nil, or_false] at hs
    rcases hin with h | h | h <;> rw [h] at hmem <;>
      rcases hs with rfl | rfl | rfl <;> revert hmem <;> decide
  simp [convert_to_bool, h1, h2]

/-- A string whose stripped form contains a list separator is not converted
to a number: the stripped string is returned. -/
theorem sep_convert_to_number {s : String} {sep : Char} (hs : sep ∈ separators)
    (hc : sep ∈ (pyStrip s).data) :
    convert_to_number s = PyValue.str (pyStrip s) := by
  have hv : pyStrip s ≠ "" := ne_empty_of_mem_data hc
  simp only [convert_to_number]
  rw [if_neg hv]
  by_cases hdot : pyContains (pyStrip s) '.' = false
  · rw [if_pos hdot, sep_pyIntParse_none hs hc]
  · rw [if_neg hdot]
    rw [if_neg (by simp [sep_pyFloatOk_false hs hc])]

/-- The separator loop returns the single surviving piece when the first
present separator yields exactly one non-empty trimmed piece. -/
theorem listSepLoop_single {v p : String} {sep : Char} (seps : List Char)
    (hfind : seps.find? (fun c => pyContains v c) = some sep)
    (hparts : ((pySplit v sep).map pyStrip).filter (fun q => q ≠ "") = [p]) :
    listSepLoop v seps = PyValue.str p := by
  induction seps with
  | nil => simp at hfind
  | cons c rest ih =>
    by_cases hc : pyContains v c = true
    · rw [List.find?_cons_of_pos rest hc] at hfind
      injection hfind with hsep
      subst hsep
      simp only [listSepLoop]
      rw [if_pos hc]
      simp only [hparts]
      norm_num
    · rw [List.find?_cons_of_neg rest (by simpa using hc)] at hfind
      simp only [listSepLoop]
      rw [if_neg hc]
      exact ih hfind

/-- C4 counterexample: for input `"a,"` the claim predicts `infer` returns
`"a"`; `convert_to_list` does return the single piece `"a"` and stops, but
`infer_and_convert` keeps the result of the list stage only when it is a
list, so it falls through and returns the stripped original `"a,"`
instead. -/
theorem single_piece_cx :
    infer_and_convert "a," = PyValue.str "a," ∧
    PyValue.str "a," ≠ PyValue.str "a" ∧
    convert_to_list "a," = PyValue.str "a" :=
  ⟨by decide, by decide, by decide⟩

/-- C4 (amended): when the first present separator (tried comma, semicolon,
pipe) splits the trimmed input into exactly one non-empty trimmed piece,
`convert_to_list` returns that piece as a single string, stopping without
trying further separators; `infer_and_convert`, however, discards this
non-list result and returns the trimmed original input instead. -/
theorem single_piece_stops (s p : String) (sep : Char)
    (hsep : firstSep (pyStrip s) = some sep)
    (hparts : ((pySplit (pyStrip s) sep).map pyStrip).filter
      (fun q => q ≠ "") = [p]) :
    convert_to_list s = PyValue.str p ∧
    infer_and_convert s = PyValue.str (pyStrip s) := by
  have hs : sep ∈ separators := List.mem_of_find?_eq_some hsep
  have hcont : pyContains (pyStrip s) sep = true := List.find?_some hsep
  have hmem : sep ∈ (pyStrip s).data := mem_of_pyContains hcont
  have hv : pyStrip s ≠ "" := ne_empty_of_mem_data hmem
  have hcl : convert_to_list s = PyValue.str p := by
    simp only [convert_to_list]
    rw [if_neg hv]
    exact listSepLoop_single separators hsep hparts
  refine ⟨hcl, ?_⟩
  have hb := sep_convert_to_bool hs hmem
  have hn := sep_convert_to_number hs hmem
  simp [infer_and_convert, hv, hb, hn, hcl, convert_to_string]

/-- C4 witness: on `"a,"` the comma is the first present separator and the
lone non-empty piece is `"a"`: `convert_to_list` returns `"a"` while
`infer_and_convert` returns the stripped original `"a,"`. -/
theorem single_piece_stops_witness :
    convert_to_list "a," = PyValue.str "a" ∧
    infer_and_convert "a," = PyValue.str (pyStrip "a,") :=
  single_piece_stops "a," "a" ',' (by decide) (by decide)
